import Mathlib

/-!
Verification of the two build-utility scripts of this repository:
`build/check_gn_headers.py` (header reconciliation) and
`build/fuchsia/binary_sizes.py` (package size accounting).

Both scripts are Python 2 programs (explicit `python2` shebang,
`dict.iteritems()` usage, no `from __future__ import division`), so `/`
on two integers is floor division and `math.ceil` applied to an integer
is the identity (returning a float).  The embeddings below model integer
arithmetic with `Nat`/`Int` (floor division spelled out) and
floating-point totals with `Rat`, since every float appearing in the
scripts is produced from integer data by divisions; `Rat` realizes the
exact (real-number) value of those expressions.
-/

namespace BinarySizes

/-- Embeds the pure core of `GetCompressedSize` (binary_sizes.py lines
216-219): the reported compressor byte count `blob_bytes` is put through
`math.ceil(blob_bytes / BLOBFS_BLOCK_SIZE) * BLOBFS_BLOCK_SIZE` with
`BLOBFS_BLOCK_SIZE = 8192`.  Under Python 2, `blob_bytes / 8192` on ints
is floor division, and `math.ceil` of the resulting int is exact, so the
expression computes `(blob_bytes / 8192) * 8192` with truncating
division. -/
def GetCompressedSize (blob_bytes : Nat) : Nat :=
  (blob_bytes / 8192) * 8192

/-- Embeds the namedtuple `Blob` of binary_sizes.py: a package blob with
its pkgfs path (`name`), content hash, and compressed/uncompressed byte
sizes.  `compressed` comes from `GetCompressedSize` (an integer-valued
float), `uncompressed` from `os.path.getsize` (an int). -/
structure Blob where
  name : String
  hash : String
  compressed : Int
  uncompressed : Int
  deriving DecidableEq, Repr

/-- Embeds the namedtuple `PackageSizes` of binary_sizes.py.  In the
script both fields end up as Python numbers: `compressed` is a float
(sum of float divisions), `uncompressed` an int (sum of int floor
divisions); we model them as `Rat` and `Int` respectively. -/
structure PackageSizes where
  compressed : Rat
  uncompressed : Int
  deriving DecidableEq, Repr

/-- Embeds the `blob_counts` computation of `GetPackageSizes`
(binary_sizes.py lines 364-368): for each package table, every blob
name occurring in it bumps the counter for that name.  The counter is
keyed by blob name alone (not by hash). -/
def blobCounts (package_blobs : List (String × List Blob)) (bn : String) : Nat :=
  (package_blobs.map (fun pk => pk.2.countP (fun b => b.name == bn))).sum

/-- Embeds the per-package totalling loop of `GetPackageSizes`
(binary_sizes.py lines 370-381): `compressed_total += blob.compressed /
count` (float true division, since `blob.compressed` is a float) and
`uncompressed_total += blob.uncompressed / count` (Python 2 int floor
division, since both operands are ints). -/
def packageTotal (package_blobs : List (String × List Blob)) (blobs : List Blob) :
    PackageSizes where
  compressed :=
    (blobs.map (fun b => (b.compressed : Rat) / (blobCounts package_blobs b.name : Rat))).sum
  uncompressed :=
    (blobs.map (fun b => Int.fdiv b.uncompressed (blobCounts package_blobs b.name))).sum

/-- Embeds `GetPackageSizes` (binary_sizes.py lines 336-383) restricted
to its pure part: the extraction of blob tables per package is taken as
the input `package_blobs` (one entry per FAR file, keyed by package base
name), and the result maps each package to its apportioned totals. -/
def GetPackageSizes (package_blobs : List (String × List Blob)) :
    List (String × PackageSizes) :=
  package_blobs.map (fun pk => (pk.1, packageTotal package_blobs pk.2))

/-- Python dict assignment `d[k] = v` on an insertion-ordered dict
modelled as an association list: replace in place if the key exists,
otherwise append at the end. -/
def dictInsert (d : List (String × PackageSizes)) (k : String) (v : PackageSizes) :
    List (String × PackageSizes) :=
  if d.any (fun p => p.1 == k) then
    d.map (fun p => if p.1 == k then (k, v) else p)
  else
    d ++ [(k, v)]

/-- Embeds the pure part of `GetBinarySizes` (binary_sizes.py lines
386-409): compute `GetPackageSizes`, then, when `far_total_name` is
present in the sizes config, add a synthetic package whose fields are
the sums of the already-apportioned per-package values
(`sum([a.compressed for a in package_sizes.values()])`, same for
uncompressed). -/
def GetBinarySizes (package_blobs : List (String × List Blob))
    (far_total_name : Option String) : List (String × PackageSizes) :=
  let package_sizes := GetPackageSizes package_blobs
  match far_total_name with
  | none => package_sizes
  | some t =>
      let compressed := (package_sizes.map (fun p => p.2.compressed)).sum
      let uncompressed := (package_sizes.map (fun p => p.2.uncompressed)).sum
      dictInsert package_sizes t ⟨compressed, uncompressed⟩

/-- Python 2 `\w` character class (no re.UNICODE flag): ASCII letters,
digits, and the underscore. -/
def isWordChar (c : Char) : Bool :=
  c.isAlpha || c.isDigit || c == '_'

/-- Backtracking search for `re.match(r'(?P<name>\w+)_compressed', m)`:
try taking `i` characters for the greedy `\w+` group, largest first,
and succeed at the first (largest) `i ≥ 1` where the literal
`_compressed` follows immediately. -/
def stripSearch (cs : List Char) : Nat → Option Nat
  | 0 => none
  | i + 1 =>
      if "_compressed".toList.isPrefixOf (cs.drop (i + 1)) then some (i + 1)
      else stripSearch cs i

/-- Embeds the metric-name resolution of `GetTestStatus`
(binary_sizes.py lines 133-135): `re.match(r'(?P<name>\w+)_compressed',
metric)` and `match.group('name') if match else metric`.  The greedy
`\w+` group takes the longest word-character prefix that is immediately
followed by the substring `_compressed`; anything after that substring
is ignored (the pattern is not anchored at the end).  If no such split
exists the metric itself is the package name. -/
def stripMetric (metric : String) : String :=
  let cs := metric.toList
  let k := (cs.takeWhile isWordChar).length
  match stripSearch cs k with
  | some i => ⟨cs.take i⟩
  | none => metric

/-- Embeds the size-limit loop of `GetTestStatus` (binary_sizes.py
lines 131-142): for each configured `(metric, limit)`, resolve the
package name, raise if it is not among the measured package sizes, and
otherwise record `PASS` when `package_sizes[package_name].compressed <=
limit` and `FAIL` when not. -/
def evalLimits (package_sizes : List (String × PackageSizes)) :
    List (String × Int) → Except String (List (String × String))
  | [] => Except.ok []
  | (metric, limit) :: rest =>
      let package_name := stripMetric metric
      match package_sizes.lookup package_name with
      | none => Except.error ("package not in sizes: " ++ package_name)
      | some sz =>
          let status := if sz.compressed ≤ (limit : Rat) then "PASS" else "FAIL"
          (evalLimits package_sizes rest).map (fun r => (metric, status) :: r)

/-- Embeds `GetTestStatus` (binary_sizes.py lines 122-146): when
`test_completed` is false the status table is the single fixed entry
`{'binary_sizes': 'CRASH'}`; otherwise every configured size limit is
evaluated (an absent package raising).  The overall flag is
`all(status == 'PASS' for status in test_status.values())`. -/
def GetTestStatus (package_sizes : List (String × PackageSizes))
    (size_limits : List (String × Int)) (test_completed : Bool) :
    Except String (Bool × List (String × String)) :=
  if test_completed then
    match evalLimits package_sizes size_limits with
    | Except.error e => Except.error e
    | Except.ok st => Except.ok (st.all (fun kv => kv.2 == "PASS"), st)
  else
    let st := [("binary_sizes", "CRASH")]
    Except.ok (st.all (fun kv => kv.2 == "PASS"), st)

/-- The total contribution that the blobs named `bn` make, across all
packages, to the apportioned compressed package totals: per package,
the sum of `blob.compressed / count` over its blobs with that name
(exactly the summands of `packageTotal` selected by name). -/
def sharedCompressedSum (package_blobs : List (String × List Blob)) (bn : String) : Rat :=
  (package_blobs.map (fun pk =>
    ((pk.2.filter (fun b => b.name == bn)).map
      (fun b => (b.compressed : Rat) / (blobCounts package_blobs bn : Rat))).sum)).sum

/-- The total contribution that the blobs named `bn` make, across all
packages, to the apportioned uncompressed package totals (summands of
`packageTotal` selected by name; Python 2 int floor division). -/
def sharedUncompressedSum (package_blobs : List (String × List Blob)) (bn : String) : Int :=
  (package_blobs.map (fun pk =>
    ((pk.2.filter (fun b => b.name == bn)).map
      (fun b => Int.fdiv b.uncompressed (blobCounts package_blobs bn))).sum)).sum

end BinarySizes

namespace CheckGnHeaders

/-- Python `s.startswith(p)` as a structurally computable operation on
the character lists underlying the strings. -/
def pyStartswith (s px : String) : Bool :=
  px.toList.isPrefixOf s.toList

/-- Python `s.endswith(p)` as a structurally computable operation on
the character lists underlying the strings. -/
def pyEndswith (s px : String) : Bool :=
  px.toList.isSuffixOf s.toList

/-- Python `s.strip()`: remove whitespace from both ends. -/
def pyStrip (s : String) : String :=
  ⟨((s.toList.dropWhile Char.isWhitespace).reverse.dropWhile Char.isWhitespace).reverse⟩

/-- Python `s[n:]`: drop the first `n` characters. -/
def pyDrop (s : String) (n : Nat) : String :=
  ⟨s.toList.drop n⟩

/-- Python `s.split('\n')`: cut a character list at every newline,
keeping empty pieces. -/
def splitNl : List Char → List (List Char)
  | [] => [[]]
  | c :: rest =>
      match splitNl rest with
      | [] => [[]]
      | h :: t => if c = '\n' then [] :: h :: t else (c :: h) :: t

/-- Embeds `ParseWhiteList` (check_gn_headers.py lines 160-166): split
the file content on newlines, delete everything from the first `#` on
(`re.sub(r'#.*', '', line)`), strip whitespace, and keep the nonempty
results as a set. -/
def ParseWhiteList (whitelist : String) : Finset String :=
  (((splitNl whitelist.toList).map
      (fun line => pyStrip ⟨line.takeWhile (fun c => c ≠ '#')⟩)).filter
      (fun line => line ≠ "")).toFinset

/-- Embeds `FilterOutDepsedRepo` (check_gn_headers.py lines 169-170):
keep the files that do not start with any of the DEPS-controlled
directory prefixes. -/
def FilterOutDepsedRepo (files deps : Finset String) : Finset String :=
  files.filter (fun f => ∀ q ∈ deps, pyStartswith f q = false)

/-- Embeds `GetNonExistingFiles` (check_gn_headers.py lines 173-178)
against an abstract filesystem oracle `isfile` standing for
`os.path.isfile`: the subset of paths for which no file exists. -/
def GetNonExistingFiles (lst : Finset String) (isfile : String → Bool) : Finset String :=
  lst.filter (fun f => isfile f = false)

/-- `all_headers.setdefault(f, [])` followed by
`all_headers[f].append(obj_file)` when `skip_obj` is off
(check_gn_headers.py lines 76-78), on an insertion-ordered dict
modelled as an association list. -/
def addHeader (acc : List (String × List String)) (f obj : String) (skip_obj : Bool) :
    List (String × List String) :=
  let acc' := if acc.any (fun p => p.1 == f) then acc else acc ++ [(f, [])]
  if skip_obj then acc'
  else acc'.map (fun p => if p.1 == f then (p.1, p.2 ++ [obj]) else p)

/-- `line.split(':')[0]` for the record header line of the ninja deps
output (check_gn_headers.py line 81): the characters before the first
colon. -/
def splitColonHead (s : String) : String :=
  ⟨s.toList.takeWhile (fun c => c ≠ ':')⟩

/-- The loop of `ParseNinjaDepsOutput` (check_gn_headers.py lines
60-82), carrying the running `is_valid` flag and current `obj_file`.
A line starting with four spaces is a continuation line: it is kept
only when the current record is `(VALID)`, the line ends in `.h` or
`.hh`, its stripped text starts with the `../../` source-tree marker
(which is removed), and the remainder starts with neither the build
output directory, nor `out`, nor `build`.  Any other line starts a new
record: `is_valid` becomes `line.endswith('(VALID)')` and `obj_file`
becomes `line.split(':')[0]`. -/
def parseNinjaGo (out_dir : String) (skip_obj : Bool) :
    List String → Bool → String → List (String × List String) →
    List (String × List String)
  | [], _, _, acc => acc
  | line :: rest, is_valid, obj, acc =>
      if pyStartswith line "    " then
        let acc' :=
          if is_valid && (pyEndswith line ".h" || pyEndswith line ".hh") then
            let f := pyStrip line
            if pyStartswith f "../../" then
              let f' := pyDrop f 6
              if pyStartswith f' out_dir || pyStartswith f' "out" then acc
              else if pyStartswith f' "build" then acc
              else addHeader acc f' obj skip_obj
            else acc
          else acc
        parseNinjaGo out_dir skip_obj rest is_valid obj acc'
      else
        parseNinjaGo out_dir skip_obj rest (pyEndswith line "(VALID)") (splitColonHead line) acc

/-- Embeds `ParseNinjaDepsOutput` (check_gn_headers.py lines 53-83):
fold the trace lines starting from is_valid false, an empty obj string,
and an empty header dict. -/
def ParseNinjaDepsOutput (ninja_out : List String) (out_dir : String) (skip_obj : Bool) :
    List (String × List String) :=
  parseNinjaGo out_dir skip_obj ninja_out false "" []

/-- The key list of a header dict (Python `d.keys()` in insertion
order). -/
def headerKeys (d : List (String × List String)) : List String :=
  d.map Prod.fst

/-- The `is_valid` flag of `ParseNinjaDepsOutput` after processing
`lines`, starting from flag `v`: a continuation line (four leading
spaces) leaves the flag unchanged, while any other line starts a new
record and resets it to whether that line ends in `(VALID)`
(check_gn_headers.py lines 79-80).  `recordValid v (lines.take i)` is
therefore the status of the record governing line `i`. -/
def recordValid (v : Bool) (lines : List String) : Bool :=
  lines.foldl
    (fun s line => if pyStartswith line "    " then s else pyEndswith line "(VALID)") v

/-- The `public` property of a GN target: either the literal wildcard
`"*"` or a list of paths (`properties.get('public', [])` makes an
absent property the empty list). -/
inductive PublicSpec where
  | wildcard : PublicSpec
  | paths : List String → PublicSpec
  deriving DecidableEq, Repr

/-- A GN target as consumed by `ParseGNProjectJSON`: its `sources` list
and its `public` property. -/
structure TargetProps where
  sources : List String
  pub : PublicSpec
  deriving DecidableEq, Repr

/-- The list `sources + public` built at check_gn_headers.py lines
116-120: a wildcard `public` contributes nothing. -/
def targetPaths (t : TargetProps) : List String :=
  t.sources ++ (match t.pub with
    | PublicSpec.wildcard => []
    | PublicSpec.paths ps => ps)

/-- The per-path body of the `ParseGNProjectJSON` loop
(check_gn_headers.py lines 121-127): only paths ending in `.h`/`.hh`
and starting with the `//` repo-root marker are added; the marker is
stripped, and a path under the ephemeral gn-gen directory `tmp_out` is
rewritten under the real build output directory `out_dir`. -/
def addGnPath (out_dir tmp_out : String) (acc : Finset String) (f : String) :
    Finset String :=
  if pyEndswith f ".h" || pyEndswith f ".hh" then
    if pyStartswith f "//" then
      let f' := pyDrop f 2
      let f'' := if pyStartswith f' tmp_out then out_dir ++ pyDrop f' tmp_out.length else f'
      insert f'' acc
    else acc
  else acc

/-- Embeds `ParseGNProjectJSON` (check_gn_headers.py lines 111-129):
fold `addGnPath` over every target's `sources + public` paths,
producing a deduplicated set. -/
def ParseGNProjectJSON (targets : List (String × TargetProps)) (out_dir tmp_out : String) :
    Finset String :=
  targets.foldl
    (fun acc t => (targetPaths t.2).foldl (addGnPath out_dir tmp_out) acc) ∅

/-- `'/gen/' in i` for a path string (check_gn_headers.py line 260). -/
def hasGenDir (s : String) : Bool :=
  decide ("/gen/".toList <:+: s.toList)

/-- Embeds the reconciliation part of `main` (check_gn_headers.py lines
235-271) after the three worker results are in and error-free: `d` is
the ninja header dict, `gn` the declared set, `deps` the ownership
prefixes, `isfile` the filesystem oracle and `wl` the optional content
of the whitelist file.  `missing = set(d.keys()) - gn` and
`nonexisting = GetNonExistingFiles(gn)` are both filtered through
`FilterOutDepsedRepo`; then the run aborts (`PrintError`, modelled as
`none`) when some ninja dep does not exist on disk, when `d` is empty,
or when some remaining nonexisting path contains `/gen/`; finally the
optional whitelist is subtracted from both sets and the sorted lists
are produced. -/
def mainReconcile (d : List (String × List String)) (gn deps : Finset String)
    (isfile : String → Bool) (wl : Option String) :
    Option (List String × List String) :=
  let used := (headerKeys d).toFinset
  let missing1 := FilterOutDepsedRepo (used \ gn) deps
  let nonexisting1 := FilterOutDepsedRepo (GetNonExistingFiles gn isfile) deps
  if (GetNonExistingFiles used isfile).Nonempty then none
  else if d = [] then none
  else if ∃ i ∈ nonexisting1, hasGenDir i = true then none
  else
    let missing2 := match wl with
      | some txt => missing1 \ ParseWhiteList txt
      | none => missing1
    let nonexisting2 := match wl with
      | some txt => nonexisting1 \ ParseWhiteList txt
      | none => nonexisting1
    some (missing2.sort (· ≤ ·), nonexisting2.sort (· ≤ ·))

end CheckGnHeaders

namespace BinarySizes

/-- C3.  The claim says `GetCompressedSize` rounds the reported byte
count up to the next multiple of 8192 (1 ↦ 8192, 8192 ↦ 8192,
8193 ↦ 16384), matching the source comment "Round the compressed file
size up to an integer number of blobfs blocks."  The code instead
computes `math.ceil(blob_bytes / 8192) * 8192` where `/` is Python 2
integer floor division, so it rounds down: 1 ↦ 0, 8192 ↦ 8192,
8193 ↦ 8192. -/
theorem C3_rounding_is_floor_not_ceil :
    GetCompressedSize 1 = 0 ∧ GetCompressedSize 8192 = 8192 ∧
    GetCompressedSize 8193 = 8192 ∧
    GetCompressedSize 1 ≠ 8192 ∧ GetCompressedSize 8193 ≠ 16384 := by
  decide

/-- C4 counterexample.  The claim says that with `test_completed`
false every key of the configured size-limit table is marked `CRASH`;
but on the config `{"foo": 10}` the returned status table is the single
fixed entry `{"binary_sizes": "CRASH"}`, and its configured key `foo`
has no status at all. -/
theorem C4_counterexample :
    GetTestStatus [] [("foo", 10)] false =
      Except.ok (false, [("binary_sizes", "CRASH")]) ∧
    [("binary_sizes", "CRASH")].lookup "foo" = none := by
  exact ⟨rfl, rfl⟩

/-- C4 amended.  When the size pipeline did not complete, the budget
evaluator returns the single-entry status table `{"binary_sizes":
"CRASH"}` (and overall failure), independently of the configured
size-limit table and measured sizes. -/
theorem C4_amended_crash_single_fixed_entry
    (package_sizes : List (String × PackageSizes))
    (size_limits : List (String × Int)) :
    GetTestStatus package_sizes size_limits false =
      Except.ok (false, [("binary_sizes", "CRASH")]) := by
  rfl

/-- C2 counterexample.  Packages `A` and `B` share the blob
(hash `h`, name `n`, compressed 8192, uncompressed 8192); package `C`
holds a different blob (hash `h2`) under the same name.  The code
counts references by name alone, so the count is 3 (not the 2 packages
referencing the distinct hash+name pair), and the uncompressed shares
use Python 2 floor division.  The contributions of the shared blob to
`A` and `B` sum to 8192/3 + 8192/3 ≠ 8192 compressed and
2730 + 2730 = 5460 ≠ 8192 uncompressed, refuting the claimed
invariant. -/
theorem C2_counterexample :
    GetPackageSizes
        [("A", [⟨"n", "h", 8192, 8192⟩]), ("B", [⟨"n", "h", 8192, 8192⟩]),
          ("C", [⟨"n", "h2", 8192, 8192⟩])] =
      [("A", ⟨8192 / 3, 2730⟩), ("B", ⟨8192 / 3, 2730⟩),
        ("C", ⟨8192 / 3, 2730⟩)] ∧
    ((8192 / 3 : Rat) + 8192 / 3 ≠ 8192) ∧ ((2730 : Int) + 2730 ≠ 8192) := by
  refine ⟨?_, by norm_num, by decide⟩
  simp only [GetPackageSizes, packageTotal, blobCounts, List.countP_cons, List.countP_nil,
    List.map_cons, List.map_nil, List.sum_cons, List.sum_nil, beq_self_eq_true, if_true,
    beq_iff_eq, List.cons.injEq, Prod.mk.injEq, PackageSizes.mk.injEq, and_true, true_and]
  norm_num
  decide

/-- C5 counterexample.  With packages `P1`, `P2` both holding the
single shared blob (hash `h`, name `n`, sizes 8192) and
`far_total_name = "total"`, the synthetic total package gets compressed
size 8192: the sum of the *apportioned* package sizes (4096 + 4096),
not the unapportioned sum 8192 + 8192 = 16384 the claim describes, and
not strictly greater than the unique-blob total 8192. -/
theorem C5_counterexample :
    (GetBinarySizes
        [("P1", [⟨"n", "h", 8192, 8192⟩]), ("P2", [⟨"n", "h", 8192, 8192⟩])]
        (some "total")).lookup "total" = some ⟨8192, 8192⟩ ∧
    ((8192 : Rat) ≠ 8192 + 8192) ∧ ¬((8192 : Rat) > 8192) := by
  refine ⟨?_, by norm_num, by norm_num⟩
  simp only [GetBinarySizes, GetPackageSizes, packageTotal, blobCounts, dictInsert,
    List.countP_cons, List.countP_nil, List.map_cons, List.map_nil, List.sum_cons,
    List.sum_nil, beq_self_eq_true, if_true, List.any_cons, List.any_nil]
  norm_num [List.lookup, Int.fdiv]
  decide

/-- C6 counterexample.  The claim says a metric is resolved by
stripping a `_compressed` suffix if present; `a_compressed_b` carries
no such suffix, so under the claim it would name the package
`a_compressed_b` (present, size 50 ≤ limit 100, hence `PASS`).  The
code's regex `(?P<name>\w+)_compressed` is not anchored, matches the
inner `_compressed`, resolves the metric to package `a`, and raises
because `a` was never measured. -/
theorem C6_counterexample :
    GetTestStatus [("a_compressed_b", ⟨50, 50⟩)] [("a_compressed_b", 100)] true =
      Except.error "package not in sizes: a" ∧
    stripMetric "a_compressed_b" = "a" ∧ ((50 : Rat) ≤ 100) := by
  refine ⟨rfl, rfl, by norm_num⟩

/-- Summing the values of a name-filtered blob list in which every blob
with the selected name is the fixed blob `b` gives count-many copies of
`g b`. -/
theorem sum_map_filter_name {M : Type} [AddCommMonoid M]
    (l : List Blob) (b : Blob) (g : Blob → M)
    (h : ∀ c ∈ l, c.name = b.name → c = b) :
    ((l.filter (fun c => c.name == b.name)).map g).sum
      = (l.countP (fun c => c.name == b.name)) • g b := by
  induction l with
  | nil => simp
  | cons a l ih =>
      have ih' := ih (fun c hc => h c (List.mem_cons_of_mem a hc))
      by_cases ha : a.name = b.name
      · have hab : a = b := h a (List.mem_cons_self a l) ha
        simp only [List.filter_cons, List.countP_cons, ha, hab, beq_self_eq_true, if_true,
          List.map_cons, List.sum_cons, ih']
        rw [succ_nsmul]
        exact add_comm _ _
      · simp [List.filter_cons, List.countP_cons, ha, ih']

/-- A sum of scalar multiples of a fixed element collapses to a single
scalar multiple. -/
theorem sum_map_nsmul_const {M α : Type} [AddCommMonoid M]
    (l : List α) (f : α → Nat) (x : M) :
    (l.map (fun a => f a • x)).sum = ((l.map f).sum) • x := by
  induction l with
  | nil => simp
  | cons a l ih => simp [ih, add_nsmul]

/-- C2 amended.  `GetPackageSizes` counts blob sharing by blob *name*
alone across the package tables.  For a blob `b` whose name is carried
by the same blob record `b` wherever it occurs, the contributions to
the per-package apportioned totals sum, across all packages, to
`b.compressed` exactly for the compressed side (float division,
modelled exactly as rationals), and to `count * (b.uncompressed fdiv
count)` for the uncompressed side (Python 2 int floor division), which
equals `b.uncompressed` only when the count divides it. -/
theorem C2_shared_blob_apportionment (package_blobs : List (String × List Blob)) (b : Blob)
    (hall : ∀ pk ∈ package_blobs, ∀ c ∈ pk.2, c.name = b.name → c = b)
    (hpos : 0 < blobCounts package_blobs b.name) :
    sharedCompressedSum package_blobs b.name = b.compressed ∧
    sharedUncompressedSum package_blobs b.name =
      (blobCounts package_blobs b.name : Int) *
        Int.fdiv b.uncompressed (blobCounts package_blobs b.name) := by
  have hk : ((blobCounts package_blobs b.name : Nat) : Rat) ≠ 0 := by
    exact_mod_cast hpos.ne'
  constructor
  · unfold sharedCompressedSum
    rw [List.map_congr_left (fun pk hpk =>
      sum_map_filter_name pk.2 b
        (fun c => (c.compressed : Rat) / (blobCounts package_blobs b.name : Rat))
        (hall pk hpk))]
    rw [sum_map_nsmul_const, ← blobCounts]
    rw [nsmul_eq_mul]
    field_simp
  · unfold sharedUncompressedSum
    rw [List.map_congr_left (fun pk hpk =>
      sum_map_filter_name pk.2 b
        (fun c => Int.fdiv c.uncompressed (blobCounts package_blobs b.name))
        (hall pk hpk))]
    rw [sum_map_nsmul_const, ← blobCounts, nsmul_eq_mul]

/-- Witness for C2 amended: the blob `⟨n, h, 8192, 8192⟩` shared by
packages `A` and `B`. -/
theorem C2_shared_blob_apportionment_witness :
    (∀ pk ∈ ([("A", [⟨"n", "h", 8192, 8192⟩]), ("B", [⟨"n", "h", 8192, 8192⟩])] :
        List (String × List Blob)), ∀ c ∈ pk.2,
        c.name = (⟨"n", "h", 8192, 8192⟩ : Blob).name → c = ⟨"n", "h", 8192, 8192⟩) ∧
    0 < blobCounts [("A", [⟨"n", "h", 8192, 8192⟩]), ("B", [⟨"n", "h", 8192, 8192⟩])] "n" ∧
    (sharedCompressedSum
        [("A", [⟨"n", "h", 8192, 8192⟩]), ("B", [⟨"n", "h", 8192, 8192⟩])] "n" = 8192 ∧
      sharedUncompressedSum
        [("A", [⟨"n", "h", 8192, 8192⟩]), ("B", [⟨"n", "h", 8192, 8192⟩])] "n" =
        (2 : Int) * Int.fdiv 8192 2) :=
  ⟨by decide, by decide,
    C2_shared_blob_apportionment
      [("A", [⟨"n", "h", 8192, 8192⟩]), ("B", [⟨"n", "h", 8192, 8192⟩])]
      ⟨"n", "h", 8192, 8192⟩ (by decide) (by decide)⟩

/-- An association list that does not know a key reports `false` when
asked whether any entry carries the key. -/
theorem any_key_eq_false_of_lookup_none {b : Type} (d : List (String × b)) (t : String)
    (h : d.lookup t = none) : d.any (fun p => p.1 == t) = false := by
  induction d with
  | nil => rfl
  | cons kv d ih =>
      obtain ⟨k, v⟩ := kv
      by_cases hk : t = k
      · subst hk
        simp [List.lookup] at h
      · have hne : (t == k) = false := beq_eq_false_iff_ne.mpr hk
        simp only [List.lookup, hne] at h
        simp only [List.any_cons, ih h, Bool.or_false]
        exact beq_eq_false_iff_ne.mpr (Ne.symm hk)

/-- Appending a fresh key to an association list makes it the lookup
result for that key. -/
theorem lookup_append_of_none {b : Type} (d : List (String × b)) (t : String) (v : b)
    (h : d.lookup t = none) : (d ++ [(t, v)]).lookup t = some v := by
  induction d with
  | nil => simp [List.lookup]
  | cons kv d ih =>
      obtain ⟨k, w⟩ := kv
      by_cases hk : t = k
      · subst hk
        simp [List.lookup] at h
      · have hne : (t == k) = false := beq_eq_false_iff_ne.mpr hk
        simp only [List.cons_append, List.lookup, hne] at h ⊢
        exact ih h

/-- C5 amended.  When the synthetic total package name is configured
(and is not itself a real package name), its recorded size is the sum
of the *apportioned* per-package sizes produced by `GetPackageSizes`,
not the unapportioned sum: a shared blob's cost enters the grand total
once (in exact arithmetic), as the C5 counterexample shows
concretely. -/
theorem C5_total_is_apportioned_sum (package_blobs : List (String × List Blob)) (t : String)
    (hfresh : (GetPackageSizes package_blobs).lookup t = none) :
    (GetBinarySizes package_blobs (some t)).lookup t =
      some ⟨((GetPackageSizes package_blobs).map (fun p => p.2.compressed)).sum,
            ((GetPackageSizes package_blobs).map (fun p => p.2.uncompressed)).sum⟩ := by
  unfold GetBinarySizes dictInsert
  simp only [any_key_eq_false_of_lookup_none _ _ hfresh, Bool.false_eq_true, if_false]
  exact lookup_append_of_none _ _ _ hfresh

/-- Witness for C5 amended: two packages sharing one blob and the
fresh total name `total`. -/
theorem C5_total_is_apportioned_sum_witness :
    (GetPackageSizes [("P1", [⟨"n", "h", 8192, 8192⟩]),
        ("P2", [⟨"n", "h", 8192, 8192⟩])]).lookup "total" = none ∧
    (GetBinarySizes [("P1", [⟨"n", "h", 8192, 8192⟩]), ("P2", [⟨"n", "h", 8192, 8192⟩])]
        (some "total")).lookup "total" =
      some ⟨((GetPackageSizes [("P1", [⟨"n", "h", 8192, 8192⟩]),
                ("P2", [⟨"n", "h", 8192, 8192⟩])]).map (fun p => p.2.compressed)).sum,
            ((GetPackageSizes [("P1", [⟨"n", "h", 8192, 8192⟩]),
                ("P2", [⟨"n", "h", 8192, 8192⟩])]).map (fun p => p.2.uncompressed)).sum⟩ :=
  ⟨rfl,
    C5_total_is_apportioned_sum
      [("P1", [⟨"n", "h", 8192, 8192⟩]), ("P2", [⟨"n", "h", 8192, 8192⟩])] "total" rfl⟩

/-- When `evalLimits` succeeds on a duplicate-free size-limit table,
every configured metric got the status demanded by the comparison of
its resolved package's compressed size against its limit. -/
theorem evalLimits_ok_mem (ps : List (String × PackageSizes)) :
    ∀ (cfg : List (String × Int)) (st : List (String × String)),
      (cfg.map Prod.fst).Nodup → evalLimits ps cfg = Except.ok st →
      ∀ ml ∈ cfg, ∃ sz : PackageSizes, ps.lookup (stripMetric ml.1) = some sz ∧
        st.lookup ml.1 = some (if sz.compressed ≤ (ml.2 : Rat) then "PASS" else "FAIL") := by
  intro cfg
  induction cfg with
  | nil => intro st _ _ ml hml; exact absurd hml (List.not_mem_nil ml)
  | cons hd rest ih =>
      obtain ⟨m0, l0⟩ := hd
      intro st hnd hok ml hml
      rw [List.map_cons, List.nodup_cons] at hnd
      obtain ⟨hm0, hndr⟩ := hnd
      cases hl : ps.lookup (stripMetric m0) with
      | none => rw [evalLimits, hl] at hok; exact absurd hok (by simp)
      | some sz0 =>
          rw [evalLimits, hl] at hok
          cases hr : evalLimits ps rest with
          | error e => rw [hr] at hok; exact absurd hok (by simp [Except.map])
          | ok rst =>
              rw [hr] at hok
              simp only [Except.map, Except.ok.injEq] at hok
              rcases List.mem_cons.mp hml with heq | hmem
              · subst heq
                refine ⟨sz0, hl, ?_⟩
                rw [← hok]
                simp [List.lookup]
              · have h1 : ml.1 ≠ m0 := by
                  intro hcontra
                  apply hm0
                  rw [← hcontra]
                  exact List.mem_map.mpr ⟨ml, hmem, rfl⟩
                have := ih rst hndr hr ml hmem
                obtain ⟨sz, hsz, hlk⟩ := this
                refine ⟨sz, hsz, ?_⟩
                rw [← hok]
                simp only [List.lookup, beq_eq_false_iff_ne.mpr h1]
                exact hlk

/-- C6 amended.  When the pipeline completed and the evaluator returned
a status table over a duplicate-free size-limit table, every configured
metric was resolved by the (unanchored) regex — for an ordinary
`<name>_compressed` metric this strips the suffix, but more generally
it keeps the longest word-character prefix immediately followed by the
substring `_compressed`, dropping everything from there on — and its
status is `PASS` exactly when the resolved package's apportioned
compressed size is at most the limit, `FAIL` otherwise; the overall
flag is the conjunction of all statuses being `PASS`.  The claim's own
examples hold: `foo_compressed` resolves to `foo`, giving `PASS` at
size 99999 against limit 100000 and `FAIL` at 100001. -/
theorem C6_budget_evaluation (ps : List (String × PackageSizes)) (cfg : List (String × Int))
    (passed : Bool) (status : List (String × String))
    (hnd : (cfg.map Prod.fst).Nodup)
    (hok : GetTestStatus ps cfg true = Except.ok (passed, status)) :
    (∀ ml ∈ cfg, ∃ sz : PackageSizes, ps.lookup (stripMetric ml.1) = some sz ∧
        status.lookup ml.1 =
          some (if sz.compressed ≤ (ml.2 : Rat) then "PASS" else "FAIL")) ∧
    passed = status.all (fun kv => kv.2 == "PASS") ∧
    stripMetric "foo_compressed" = "foo" ∧
    GetTestStatus [("foo", ⟨99999, 0⟩)] [("foo_compressed", 100000)] true =
      Except.ok (true, [("foo_compressed", "PASS")]) ∧
    GetTestStatus [("foo", ⟨100001, 0⟩)] [("foo_compressed", 100000)] true =
      Except.ok (false, [("foo_compressed", "FAIL")]) := by
  rw [GetTestStatus, if_pos rfl] at hok
  cases he : evalLimits ps cfg with
  | error e => rw [he] at hok; exact absurd hok (by simp)
  | ok st =>
      rw [he] at hok
      simp only [Except.ok.injEq, Prod.mk.injEq] at hok
      obtain ⟨hpassed, hst⟩ := hok
      subst hst
      refine ⟨evalLimits_ok_mem ps cfg _ hnd he, hpassed.symm, rfl, rfl, rfl⟩

/-- Witness for C6 amended: the claim's own `foo_compressed` example at
size 99999 against limit 100000. -/
theorem C6_budget_evaluation_witness :
    (([("foo_compressed", (100000 : Int))].map Prod.fst).Nodup) ∧
    GetTestStatus [("foo", ⟨99999, 0⟩)] [("foo_compressed", 100000)] true =
      Except.ok (true, [("foo_compressed", "PASS")]) ∧
    ((∀ ml ∈ ([("foo_compressed", (100000 : Int))] : List (String × Int)),
        ∃ sz : PackageSizes,
          ([("foo", (⟨99999, 0⟩ : PackageSizes))]).lookup (stripMetric ml.1) = some sz ∧
          ([("foo_compressed", "PASS")] : List (String × String)).lookup ml.1 =
            some (if sz.compressed ≤ (ml.2 : Rat) then "PASS" else "FAIL")) ∧
      true = ([("foo_compressed", "PASS")] : List (String × String)).all
          (fun kv => kv.2 == "PASS") ∧
      stripMetric "foo_compressed" = "foo" ∧
      GetTestStatus [("foo", ⟨99999, 0⟩)] [("foo_compressed", 100000)] true =
        Except.ok (true, [("foo_compressed", "PASS")]) ∧
      GetTestStatus [("foo", ⟨100001, 0⟩)] [("foo_compressed", 100000)] true =
        Except.ok (false, [("foo_compressed", "FAIL")])) :=
  ⟨by decide, rfl,
    C6_budget_evaluation [("foo", ⟨99999, 0⟩)] [("foo_compressed", 100000)]
      true [("foo_compressed", "PASS")] (by decide) rfl⟩

/-- When some configured metric resolves to a package that was never
measured, the size-limit loop raises. -/
theorem evalLimits_error_of_missing (ps : List (String × PackageSizes)) :
    ∀ (cfg : List (String × Int)) (m : String) (l : Int),
      (m, l) ∈ cfg → ps.lookup (stripMetric m) = none →
      ∃ e, evalLimits ps cfg = Except.error e := by
  intro cfg
  induction cfg with
  | nil => intro m l hm _; exact absurd hm (List.not_mem_nil (m, l))
  | cons hd rest ih =>
      obtain ⟨m0, l0⟩ := hd
      intro m l hm hmiss
      cases hl : ps.lookup (stripMetric m0) with
      | none => exact ⟨_, by rw [evalLimits, hl]⟩
      | some sz0 =>
          rcases List.mem_cons.mp hm with heq | hmem
          · rw [Prod.mk.injEq] at heq
            rw [heq.1] at hmiss
            rw [hmiss] at hl
            exact absurd hl (by simp)
          · obtain ⟨e, he⟩ := ih m l hmem hmiss
            refine ⟨e, ?_⟩
            rw [evalLimits, hl, he]
            rfl

/-- C10.  With the pipeline completed, if some configured budget metric
resolves to a package name absent from the measured package-size
mapping, `GetTestStatus` raises (returns an error) instead of producing
any status mapping. -/
theorem C10_missing_package_raises (ps : List (String × PackageSizes))
    (cfg : List (String × Int)) (m : String) (l : Int)
    (hm : (m, l) ∈ cfg) (hmiss : ps.lookup (stripMetric m) = none) :
    ∃ e, GetTestStatus ps cfg true = Except.error e := by
  obtain ⟨e, he⟩ := evalLimits_error_of_missing ps cfg m l hm hmiss
  exact ⟨e, by rw [GetTestStatus, if_pos rfl, he]⟩

/-- Witness for C10: metric `foo_compressed` configured while nothing
was measured. -/
theorem C10_missing_package_raises_witness :
    ("foo_compressed", (100 : Int)) ∈ ([("foo_compressed", 100)] : List (String × Int)) ∧
    ([] : List (String × PackageSizes)).lookup (stripMetric "foo_compressed") = none ∧
    ∃ e, GetTestStatus [] [("foo_compressed", 100)] true = Except.error e :=
  ⟨by decide, rfl,
    C10_missing_package_raises [] [("foo_compressed", 100)] "foo_compressed" 100
      (by decide) rfl⟩

end BinarySizes

namespace CheckGnHeaders

/-- A header dict knows a key exactly when some entry carries it. -/
theorem any_key_iff_mem_headerKeys (l : List (String × List String)) (f : String) :
    l.any (fun p => p.1 == f) = true ↔ f ∈ headerKeys l := by
  rw [List.any_eq_true]
  unfold headerKeys
  constructor
  · rintro ⟨p, hp, hpf⟩
    rw [beq_iff_eq] at hpf
    exact hpf ▸ List.mem_map.mpr ⟨p, hp, rfl⟩
  · intro hf
    obtain ⟨p, hp, hpf⟩ := List.mem_map.mp hf
    exact ⟨p, hp, beq_iff_eq.mpr hpf⟩

/-- Appending an object file to one entry of a header dict does not
change its keys. -/
theorem headerKeys_map_snd (l : List (String × List String)) (f obj : String) :
    headerKeys (l.map (fun p => if p.1 == f then (p.1, p.2 ++ [obj]) else p)) =
      headerKeys l := by
  unfold headerKeys
  rw [List.map_map]
  refine List.map_congr_left ?_
  intro p _
  by_cases hp : (p.1 == f) = true
  · simp [Function.comp, hp]
  · simp only [Bool.not_eq_true] at hp
    simp [Function.comp, hp]

/-- The keys after `addHeader` are the old keys plus the added
header. -/
theorem mem_headerKeys_addHeader (acc : List (String × List String))
    (f obj : String) (skip_obj : Bool) (x : String) :
    x ∈ headerKeys (addHeader acc f obj skip_obj) ↔ x ∈ headerKeys acc ∨ x = f := by
  simp only [addHeader]
  by_cases hany : acc.any (fun p => p.1 == f) = true
  · have hf : f ∈ headerKeys acc := (any_key_iff_mem_headerKeys acc f).mp hany
    have hiff : x ∈ headerKeys acc ↔ x ∈ headerKeys acc ∨ x = f :=
      ⟨Or.inl, fun h => h.elim id (fun hx => hx ▸ hf)⟩
    cases skip_obj with
    | true => simp only [hany, if_true, Bool.true_eq_false, if_false]; exact hiff
    | false =>
        simp only [hany, if_true, Bool.false_eq_true, if_false, headerKeys_map_snd]
        exact hiff
  · rw [Bool.not_eq_true] at hany
    have happ : x ∈ headerKeys (acc ++ [(f, [])]) ↔ x ∈ headerKeys acc ∨ x = f := by
      unfold headerKeys
      rw [List.map_append]
      simp
    cases skip_obj with
    | true =>
        simp only [hany, Bool.false_eq_true, if_false, if_true, Bool.true_eq_false]
        exact happ
    | false =>
        simp only [hany, Bool.false_eq_true, if_false, headerKeys_map_snd]
        exact happ

/-- Stepping the `is_valid` flag through a concatenation of line
blocks composes. -/
theorem recordValid_append (v : Bool) (l1 l2 : List String) :
    recordValid v (l1 ++ l2) = recordValid (recordValid v l1) l2 := by
  unfold recordValid
  rw [List.foldl_append]

/-- The `is_valid` flag in effect after some lines equals the
`(VALID)` status of the last record-header (non-continuation) line
among them, or the initial flag when there is none: the flag really is
the status of the current record. -/
theorem recordValid_lastRecord (lines : List String) : ∀ v : Bool,
    recordValid v lines =
      (match (lines.filter (fun l => !(pyStartswith l "    "))).getLast? with
        | some l => pyEndswith l "(VALID)"
        | none => v) := by
  induction lines with
  | nil => intro v; rfl
  | cons line rest ih =>
      intro v
      by_cases hc : pyStartswith line "    " = true
      · have h1 : recordValid v (line :: rest) = recordValid v rest := by
          unfold recordValid
          rw [List.foldl_cons, if_pos hc]
        have h2 : (line :: rest).filter (fun l => !(pyStartswith l "    ")) =
            rest.filter (fun l => !(pyStartswith l "    ")) := by
          rw [List.filter_cons]
          simp [hc]
        rw [h1, h2, ih v]
      · have h1 : recordValid v (line :: rest) =
            recordValid (pyEndswith line "(VALID)") rest := by
          unfold recordValid
          rw [List.foldl_cons, if_neg hc]
        have h2 : (line :: rest).filter (fun l => !(pyStartswith l "    ")) =
            line :: rest.filter (fun l => !(pyStartswith l "    ")) := by
          rw [List.filter_cons]
          simp [Bool.not_eq_true] at hc
          simp [hc]
        rw [h1, h2, ih (pyEndswith line "(VALID)")]
        cases hf : rest.filter (fun l => !(pyStartswith l "    ")) with
        | nil => simp
        | cons a t =>
            rw [List.getLast?_cons_cons]
            cases hlast : (a :: t).getLast? with
            | none => exact absurd hlast (by simp)
            | some x => rfl

/-- Every key the ninja-deps loop adds comes from a four-space
continuation line at some position `i` that ends in a header extension
and whose stripped text carried the `../../` marker; the `is_valid`
flag in effect at `i` (the governing record status, `recordValid`) is
true; and the key itself starts with neither the build output
directory, nor `out`, nor `build`. -/
theorem parseNinjaGo_keys (out_dir : String) (skip_obj : Bool) :
    ∀ (lines : List String) (v : Bool) (obj : String)
      (acc : List (String × List String)) (f : String),
      f ∈ headerKeys (parseNinjaGo out_dir skip_obj lines v obj acc) →
      f ∈ headerKeys acc ∨
        ((pyStartswith f out_dir = false ∧ pyStartswith f "out" = false ∧
            pyStartswith f "build" = false) ∧
          ∃ i, ∃ hi : i < lines.length,
            pyStartswith (lines.get ⟨i, hi⟩) "    " = true ∧
            recordValid v (lines.take i) = true ∧
            (pyEndswith (lines.get ⟨i, hi⟩) ".h" = true ∨
              pyEndswith (lines.get ⟨i, hi⟩) ".hh" = true) ∧
            pyStartswith (pyStrip (lines.get ⟨i, hi⟩)) "../../" = true ∧
            f = pyDrop (pyStrip (lines.get ⟨i, hi⟩)) 6) := by
  intro lines
  induction lines with
  | nil => intro v obj acc f hmem; exact Or.inl hmem
  | cons line rest ih =>
      intro v obj acc f hmem
      simp only [parseNinjaGo] at hmem
      have lift : ∀ {h : Prop} (v2 : Bool), recordValid v [line] = v2 → h →
          (∃ j, ∃ hj : j < rest.length,
            pyStartswith (rest.get ⟨j, hj⟩) "    " = true ∧
            recordValid v2 (rest.take j) = true ∧
            (pyEndswith (rest.get ⟨j, hj⟩) ".h" = true ∨
              pyEndswith (rest.get ⟨j, hj⟩) ".hh" = true) ∧
            pyStartswith (pyStrip (rest.get ⟨j, hj⟩)) "../../" = true ∧
            f = pyDrop (pyStrip (rest.get ⟨j, hj⟩)) 6) →
          h ∧ ∃ i, ∃ hi : i < (line :: rest).length,
            pyStartswith ((line :: rest).get ⟨i, hi⟩) "    " = true ∧
            recordValid v ((line :: rest).take i) = true ∧
            (pyEndswith ((line :: rest).get ⟨i, hi⟩) ".h" = true ∨
              pyEndswith ((line :: rest).get ⟨i, hi⟩) ".hh" = true) ∧
            pyStartswith (pyStrip ((line :: rest).get ⟨i, hi⟩)) "../../" = true ∧
            f = pyDrop (pyStrip ((line :: rest).get ⟨i, hi⟩)) 6 := by
        rintro h v2 hv2 hh ⟨j, hj, hcont, hval, hrest⟩
        refine ⟨hh, j + 1, Nat.succ_lt_succ hj, ?_⟩
        have hget : (line :: rest).get ⟨j + 1, Nat.succ_lt_succ hj⟩ = rest.get ⟨j, hj⟩ := rfl
        have htake : (line :: rest).take (j + 1) = [line] ++ rest.take j := rfl
        rw [hget, htake, recordValid_append, hv2]
        exact ⟨hcont, hval, hrest⟩
      by_cases hc : pyStartswith line "    " = true
      · have hv2 : recordValid v [line] = v := by
          unfold recordValid
          rw [List.foldl_cons, if_pos hc]
          rfl
        rw [if_pos hc] at hmem
        by_cases hv : (v && (pyEndswith line ".h" || pyEndswith line ".hh")) = true
        · rw [if_pos hv] at hmem
          by_cases hpre : pyStartswith (pyStrip line) "../../" = true
          · rw [if_pos hpre] at hmem
            by_cases hout : (pyStartswith (pyDrop (pyStrip line) 6) out_dir ||
                pyStartswith (pyDrop (pyStrip line) 6) "out") = true
            · rw [if_pos hout] at hmem
              rcases ih v obj acc f hmem with hacc | ⟨hcond, hex⟩
              · exact Or.inl hacc
              · exact Or.inr (lift v hv2 hcond hex)
            · rw [if_neg hout] at hmem
              by_cases hbuild : pyStartswith (pyDrop (pyStrip line) 6) "build" = true
              · rw [if_pos hbuild] at hmem
                rcases ih v obj acc f hmem with hacc | ⟨hcond, hex⟩
                · exact Or.inl hacc
                · exact Or.inr (lift v hv2 hcond hex)
              · rw [if_neg hbuild] at hmem
                rcases ih v obj _ f hmem with hacc | ⟨hcond, hex⟩
                · rcases (mem_headerKeys_addHeader acc (pyDrop (pyStrip line) 6)
                      obj skip_obj f).mp hacc with h | h
                  · exact Or.inl h
                  · right
                    have bfalse : ∀ {b : Bool}, ¬(b = true) → b = false := by
                      intro b hb
                      cases b
                      · rfl
                      · exact absurd rfl hb
                    rw [Bool.or_eq_true] at hout
                    push_neg at hout
                    obtain ⟨hout1, hout2⟩ := hout
                    rw [Bool.and_eq_true, Bool.or_eq_true] at hv
                    refine ⟨⟨h ▸ bfalse hout1, h ▸ bfalse hout2, h ▸ bfalse hbuild⟩,
                      0, Nat.succ_pos rest.length, hc, hv.1, hv.2, hpre, h⟩
                · exact Or.inr (lift v hv2 hcond hex)
          · rw [if_neg hpre] at hmem
            rcases ih v obj acc f hmem with hacc | ⟨hcond, hex⟩
            · exact Or.inl hacc
            · exact Or.inr (lift v hv2 hcond hex)
        · rw [if_neg hv] at hmem
          rcases ih v obj acc f hmem with hacc | ⟨hcond, hex⟩
          · exact Or.inl hacc
          · exact Or.inr (lift v hv2 hcond hex)
      · have hv2 : recordValid v [line] = pyEndswith line "(VALID)" := by
          unfold recordValid
          rw [List.foldl_cons, if_neg hc]
          rfl
        rw [if_neg hc] at hmem
        rcases ih _ _ acc f hmem with hacc | ⟨hcond, hex⟩
        · exact Or.inl hacc
        · exact Or.inr (lift (pyEndswith line "(VALID)") hv2 hcond hex)

/-- A concrete reconciler run used to witness C1 and C8: one used
header `a.h`, declared set `{a.h, b.h}`, only `a.h` existing on disk,
no ownership prefixes, no whitelist. -/
theorem mainReconcile_small_run :
    mainReconcile [("a.h", [])] {"a.h", "b.h"} ∅ (fun s => s == "a.h") none =
      some ([], ["b.h"]) := by
  simp only [mainReconcile]
  rw [if_neg (by decide), if_neg (by decide), if_neg (by decide)]
  have e1 : FilterOutDepsedRepo ((headerKeys [("a.h", [])]).toFinset \ {"a.h", "b.h"}) ∅ =
      (∅ : Finset String) := by decide
  have e2 : FilterOutDepsedRepo
      (GetNonExistingFiles {"a.h", "b.h"} (fun s => s == "a.h")) ∅ =
      ({"b.h"} : Finset String) := by decide
  rw [e1, e2]
  simp

/-- The reconciler run of the C7 end-to-end scenario: used `{a.h}`,
declared `{a.h}`, empty ownership set, no whitelist. -/
theorem mainReconcile_scenario_run :
    mainReconcile [("a.h", ["obj1"])] {"a.h"} ∅ (fun s => s == "a.h") none =
      some ([], []) := by
  simp only [mainReconcile]
  rw [if_neg (by decide), if_neg (by decide), if_neg (by decide)]
  have e1 : FilterOutDepsedRepo ((headerKeys [("a.h", ["obj1"])]).toFinset \ {"a.h"}) ∅ =
      (∅ : Finset String) := by decide
  have e2 : FilterOutDepsedRepo
      (GetNonExistingFiles {"a.h"} (fun s => s == "a.h")) ∅ =
      (∅ : Finset String) := by decide
  rw [e1, e2]
  simp

/-- C1.  For every header path `p` in the used mapping `d`, when the
reconciler completes, `p` is in the final missing list iff `p` is not
declared, `p` starts with no ownership prefix, and `p` is not in the
(optional) allow-list. -/
theorem C1_missing_characterization (d : List (String × List String))
    (gn deps : Finset String) (isfile : String → Bool) (wl : Option String)
    (missing nonexisting : List String) (p : String)
    (hrun : mainReconcile d gn deps isfile wl = some (missing, nonexisting))
    (hp : p ∈ headerKeys d) :
    p ∈ missing ↔
      (p ∉ gn ∧ (∀ q ∈ deps, pyStartswith p q = false) ∧
        (∀ txt, wl = some txt → p ∉ ParseWhiteList txt)) := by
  simp only [mainReconcile] at hrun
  split_ifs at hrun with h1 h2 h3
  simp only [Option.some.injEq, Prod.mk.injEq] at hrun
  obtain ⟨hm, hn⟩ := hrun
  cases wl with
  | none =>
      rw [← hm]
      simp only [Finset.mem_sort, FilterOutDepsedRepo, Finset.mem_filter,
        Finset.mem_sdiff, List.mem_toFinset]
      constructor
      · rintro ⟨⟨_, hgn⟩, hdeps⟩
        exact ⟨hgn, hdeps, by intro txt htxt; cases htxt⟩
      · rintro ⟨hgn, hdeps, _⟩
        exact ⟨⟨hp, hgn⟩, hdeps⟩
  | some txt =>
      rw [← hm]
      simp only [Finset.mem_sort, Finset.mem_sdiff, FilterOutDepsedRepo,
        Finset.mem_filter, List.mem_toFinset]
      constructor
      · rintro ⟨⟨⟨_, hgn⟩, hdeps⟩, hwl⟩
        exact ⟨hgn, hdeps, by intro t ht; cases ht; exact hwl⟩
      · rintro ⟨hgn, hdeps, hwl⟩
        exact ⟨⟨⟨hp, hgn⟩, hdeps⟩, hwl txt rfl⟩

/-- Witness for C1 at the concrete run of `mainReconcile_small_run`
with `p = a.h`. -/
theorem C1_missing_characterization_witness :
    (mainReconcile [("a.h", [])] {"a.h", "b.h"} ∅ (fun s => s == "a.h") none =
      some ([], ["b.h"])) ∧
    "a.h" ∈ headerKeys [("a.h", [])] ∧
    ("a.h" ∈ ([] : List String) ↔
      ("a.h" ∉ ({"a.h", "b.h"} : Finset String) ∧
        (∀ q ∈ (∅ : Finset String), pyStartswith "a.h" q = false) ∧
        (∀ txt, (none : Option String) = some txt → "a.h" ∉ ParseWhiteList txt))) :=
  ⟨mainReconcile_small_run, by decide,
    C1_missing_characterization [("a.h", [])] {"a.h", "b.h"} ∅ (fun s => s == "a.h")
      none [] ["b.h"] "a.h" mainReconcile_small_run (by decide)⟩

/-- C8.  For every declared path `p`, when the reconciler completes,
`p` is in the final nonexistent list iff no file exists at `p`, `p`
starts with no ownership prefix, and `p` is not in the (optional)
allow-list. -/
theorem C8_nonexistent_characterization (d : List (String × List String))
    (gn deps : Finset String) (isfile : String → Bool) (wl : Option String)
    (missing nonexisting : List String) (p : String)
    (hrun : mainReconcile d gn deps isfile wl = some (missing, nonexisting))
    (hp : p ∈ gn) :
    p ∈ nonexisting ↔
      (isfile p = false ∧ (∀ q ∈ deps, pyStartswith p q = false) ∧
        (∀ txt, wl = some txt → p ∉ ParseWhiteList txt)) := by
  simp only [mainReconcile] at hrun
  split_ifs at hrun with h1 h2 h3
  simp only [Option.some.injEq, Prod.mk.injEq] at hrun
  obtain ⟨hm, hn⟩ := hrun
  cases wl with
  | none =>
      rw [← hn]
      simp only [Finset.mem_sort, FilterOutDepsedRepo, GetNonExistingFiles,
        Finset.mem_filter]
      constructor
      · rintro ⟨⟨_, hex⟩, hdeps⟩
        exact ⟨hex, hdeps, by intro txt htxt; cases htxt⟩
      · rintro ⟨hex, hdeps, _⟩
        exact ⟨⟨hp, hex⟩, hdeps⟩
  | some txt =>
      rw [← hn]
      simp only [Finset.mem_sort, Finset.mem_sdiff, FilterOutDepsedRepo,
        GetNonExistingFiles, Finset.mem_filter]
      constructor
      · rintro ⟨⟨⟨_, hex⟩, hdeps⟩, hwl⟩
        exact ⟨hex, hdeps, by intro t ht; cases ht; exact hwl⟩
      · rintro ⟨hex, hdeps, hwl⟩
        exact ⟨⟨⟨hp, hex⟩, hdeps⟩, hwl txt rfl⟩

/-- Witness for C8 at the concrete run of `mainReconcile_small_run`
with `p = b.h` (declared, not on disk). -/
theorem C8_nonexistent_characterization_witness :
    (mainReconcile [("a.h", [])] {"a.h", "b.h"} ∅ (fun s => s == "a.h") none =
      some ([], ["b.h"])) ∧
    "b.h" ∈ ({"a.h", "b.h"} : Finset String) ∧
    ("b.h" ∈ (["b.h"] : List String) ↔
      ((fun s => s == "a.h") "b.h" = false ∧
        (∀ q ∈ (∅ : Finset String), pyStartswith "b.h" q = false) ∧
        (∀ txt, (none : Option String) = some txt → "b.h" ∉ ParseWhiteList txt))) :=
  ⟨mainReconcile_small_run, by decide,
    C8_nonexistent_characterization [("a.h", [])] {"a.h", "b.h"} ∅ (fun s => s == "a.h")
      none [] ["b.h"] "b.h" mainReconcile_small_run (by decide)⟩

/-- C7.  Trace-parser filtering, in three parts.  (1) Every header key
produced by `ParseNinjaDepsOutput` starts with neither the build output
directory, nor `out`, nor `build`, and stems from a continuation line
at some position `i` that ends in `.h`/`.hh`, whose stripped text
carried the `../../` marker that was stripped, and at which the
`is_valid` flag in effect — `recordValid false (lines.take i)` — is
true.  (2) That flag equals the `(VALID)` status of the last
record-header line seen so far (false at the start of the trace when
there is none), so a continuation line is included only when its own
record's status is `VALID`.  (3) The end-to-end scenario: a `(VALID)`
record listing `../../a.h` and `../../build/config.h` parses to the
mapping `{a.h: [obj1]}` — `build/config.h` is dropped during trace
parsing — and reconciling it against declared `{a.h}` with empty
ownership set and no allow-list yields an empty missing list. -/
theorem C7_trace_filtering :
    (∀ (lines : List String) (out_dir : String) (skip_obj : Bool) (f : String),
      f ∈ headerKeys (ParseNinjaDepsOutput lines out_dir skip_obj) →
      (pyStartswith f out_dir = false ∧ pyStartswith f "out" = false ∧
          pyStartswith f "build" = false) ∧
        ∃ i, ∃ hi : i < lines.length,
          pyStartswith (lines.get ⟨i, hi⟩) "    " = true ∧
          recordValid false (lines.take i) = true ∧
          (pyEndswith (lines.get ⟨i, hi⟩) ".h" = true ∨
            pyEndswith (lines.get ⟨i, hi⟩) ".hh" = true) ∧
          pyStartswith (pyStrip (lines.get ⟨i, hi⟩)) "../../" = true ∧
          f = pyDrop (pyStrip (lines.get ⟨i, hi⟩)) 6) ∧
    (∀ (v : Bool) (lines : List String),
      recordValid v lines =
        (match (lines.filter (fun l => !(pyStartswith l "    "))).getLast? with
          | some l => pyEndswith l "(VALID)"
          | none => v)) ∧
    (ParseNinjaDepsOutput
        ["obj1: deps 2, deps mtime 12345 (VALID)", "    ../../a.h",
          "    ../../build/config.h"] "out/Release" false = [("a.h", ["obj1"])] ∧
      mainReconcile [("a.h", ["obj1"])] {"a.h"} ∅ (fun s => s == "a.h") none =
        some ([], [])) := by
  refine ⟨?_, fun v lines => recordValid_lastRecord lines v, by decide,
    mainReconcile_scenario_run⟩
  intro lines out_dir skip_obj f hmem
  rcases parseNinjaGo_keys out_dir skip_obj lines false "" [] f hmem with hacc | h
  · exact absurd hacc (List.not_mem_nil f)
  · exact h

/-- Witness for C7: its key-characterization part applied to the
scenario trace at the collected key `a.h`. -/
theorem C7_trace_filtering_witness :
    "a.h" ∈ headerKeys (ParseNinjaDepsOutput
        ["obj1: deps 2, deps mtime 12345 (VALID)", "    ../../a.h",
          "    ../../build/config.h"] "out/Release" false) ∧
    ((pyStartswith "a.h" "out/Release" = false ∧ pyStartswith "a.h" "out" = false ∧
        pyStartswith "a.h" "build" = false) ∧
      ∃ i, ∃ hi : i < (["obj1: deps 2, deps mtime 12345 (VALID)", "    ../../a.h",
          "    ../../build/config.h"] : List String).length,
        pyStartswith ((["obj1: deps 2, deps mtime 12345 (VALID)", "    ../../a.h",
            "    ../../build/config.h"] : List String).get ⟨i, hi⟩) "    " = true ∧
        recordValid false ((["obj1: deps 2, deps mtime 12345 (VALID)", "    ../../a.h",
            "    ../../build/config.h"] : List String).take i) = true ∧
        (pyEndswith ((["obj1: deps 2, deps mtime 12345 (VALID)", "    ../../a.h",
            "    ../../build/config.h"] : List String).get ⟨i, hi⟩) ".h" = true ∨
          pyEndswith ((["obj1: deps 2, deps mtime 12345 (VALID)", "    ../../a.h",
            "    ../../build/config.h"] : List String).get ⟨i, hi⟩) ".hh" = true) ∧
        pyStartswith (pyStrip ((["obj1: deps 2, deps mtime 12345 (VALID)",
            "    ../../a.h",
            "    ../../build/config.h"] : List String).get ⟨i, hi⟩)) "../../" = true ∧
        "a.h" = pyDrop (pyStrip ((["obj1: deps 2, deps mtime 12345 (VALID)",
            "    ../../a.h",
            "    ../../build/config.h"] : List String).get ⟨i, hi⟩)) 6) :=
  ⟨by decide,
    C7_trace_filtering.1 ["obj1: deps 2, deps mtime 12345 (VALID)", "    ../../a.h",
      "    ../../build/config.h"] "out/Release" false "a.h" (by decide)⟩

/-- In `addGnPath`, a path lands in the set exactly when it carried a
header extension and the `//` marker, after stripping and the tmp
rewrite. -/
theorem mem_addGnPath (out_dir tmp_out : String) (acc : Finset String) (g f : String) :
    f ∈ addGnPath out_dir tmp_out acc g ↔
      (f ∈ acc ∨
        ((pyEndswith g ".h" = true ∨ pyEndswith g ".hh" = true) ∧
          pyStartswith g "//" = true ∧
          f = (if pyStartswith (pyDrop g 2) tmp_out = true
               then out_dir ++ pyDrop (pyDrop g 2) tmp_out.length
               else pyDrop g 2))) := by
  simp only [addGnPath]
  by_cases h1 : (pyEndswith g ".h" || pyEndswith g ".hh") = true
  · rw [if_pos h1]
    rw [Bool.or_eq_true] at h1
    by_cases h2 : pyStartswith g "//" = true
    · rw [if_pos h2]
      simp only [Finset.mem_insert]
      constructor
      · rintro (hf | hf)
        · exact Or.inr ⟨h1, h2, hf⟩
        · exact Or.inl hf
      · rintro (hf | ⟨_, _, hf⟩)
        · exact Or.inr hf
        · exact Or.inl hf
    · rw [if_neg h2]
      constructor
      · exact Or.inl
      · rintro (hf | ⟨_, h2c, _⟩)
        · exact hf
        · exact absurd h2c h2
  · rw [if_neg h1]
    rw [Bool.or_eq_true] at h1
    push_neg at h1
    constructor
    · exact Or.inl
    · rintro (hf | ⟨h1c, _, _⟩)
      · exact hf
      · rcases h1c with hc | hc
        · exact absurd hc h1.1
        · exact absurd hc h1.2

/-- Folding `addGnPath` over a path list collects exactly the
qualifying paths. -/
theorem mem_foldl_addGnPath (out_dir tmp_out : String) :
    ∀ (l : List String) (acc : Finset String) (f : String),
      f ∈ l.foldl (addGnPath out_dir tmp_out) acc ↔
        (f ∈ acc ∨ ∃ g ∈ l,
          (pyEndswith g ".h" = true ∨ pyEndswith g ".hh" = true) ∧
          pyStartswith g "//" = true ∧
          f = (if pyStartswith (pyDrop g 2) tmp_out = true
               then out_dir ++ pyDrop (pyDrop g 2) tmp_out.length
               else pyDrop g 2)) := by
  intro l
  induction l with
  | nil => intro acc f; simp
  | cons g l ih =>
      intro acc f
      rw [List.foldl_cons, ih, mem_addGnPath]
      constructor
      · rintro ((hf | hp) | ⟨g2, hg2, hp⟩)
        · exact Or.inl hf
        · exact Or.inr ⟨g, List.mem_cons_self g l, hp⟩
        · exact Or.inr ⟨g2, List.mem_cons_of_mem g hg2, hp⟩
      · rintro (hf | ⟨g2, hg2, hp⟩)
        · exact Or.inl (Or.inl hf)
        · rcases List.mem_cons.mp hg2 with heq | hmem
          · exact Or.inl (Or.inr (heq ▸ hp))
          · exact Or.inr ⟨g2, hmem, hp⟩

/-- C9 counterexample.  The claim says every listed path ending in a
header extension is collected; but a path without the `//` repo-root
marker is silently dropped: a target whose sources list is `[a.h]`
yields the empty set, not `{a.h}`. -/
theorem C9_counterexample :
    ParseGNProjectJSON [("t", ⟨["a.h"], PublicSpec.paths []⟩)] "out/Release" "tmpdir" =
      (∅ : Finset String) ∧
    pyEndswith "a.h" ".h" = true := by
  exact ⟨by decide, by decide⟩

/-- C9 amended.  `ParseGNProjectJSON` collects exactly the paths,
listed in some target under `sources` or a list-valued `public` (a
wildcard `public` contributing nothing), that end in a header extension
AND carry the `//` repo-root marker: the marker is stripped, a path
under the ephemeral gn-gen directory is rewritten under the real build
output directory, and the result is a deduplicated set.  Paths without
the marker are ignored. -/
theorem C9_collects_rooted_headers (targets : List (String × TargetProps))
    (out_dir tmp_out : String) (f : String) :
    f ∈ ParseGNProjectJSON targets out_dir tmp_out ↔
      ∃ t ∈ targets, ∃ g ∈ targetPaths t.2,
        (pyEndswith g ".h" = true ∨ pyEndswith g ".hh" = true) ∧
        pyStartswith g "//" = true ∧
        f = (if pyStartswith (pyDrop g 2) tmp_out = true
             then out_dir ++ pyDrop (pyDrop g 2) tmp_out.length
             else pyDrop g 2) := by
  unfold ParseGNProjectJSON
  have aux : ∀ (ts : List (String × TargetProps)) (acc : Finset String),
      f ∈ ts.foldl (fun acc t => (targetPaths t.2).foldl (addGnPath out_dir tmp_out) acc)
          acc ↔
        (f ∈ acc ∨ ∃ t ∈ ts, ∃ g ∈ targetPaths t.2,
          (pyEndswith g ".h" = true ∨ pyEndswith g ".hh" = true) ∧
          pyStartswith g "//" = true ∧
          f = (if pyStartswith (pyDrop g 2) tmp_out = true
               then out_dir ++ pyDrop (pyDrop g 2) tmp_out.length
               else pyDrop g 2)) := by
    intro ts
    induction ts with
    | nil => intro acc; simp
    | cons t ts ih =>
        intro acc
        rw [List.foldl_cons, ih, mem_foldl_addGnPath]
        constructor
        · rintro ((hf | hp) | ⟨t2, ht2, hp⟩)
          · exact Or.inl hf
          · exact Or.inr ⟨t, List.mem_cons_self t ts, hp⟩
          · exact Or.inr ⟨t2, List.mem_cons_of_mem t ht2, hp⟩
        · rintro (hf | ⟨t2, ht2, hp⟩)
          · exact Or.inl (Or.inl hf)
          · rcases List.mem_cons.mp ht2 with heq | hmem
            · exact Or.inl (Or.inr (heq ▸ hp))
            · exact Or.inr ⟨t2, hmem, hp⟩
  rw [aux]
  simp

end CheckGnHeaders
